import Mathlib

/-!
# Verification of the agent-teams coordination stores

Shallow embedding of `codex-rs/core/src/teams/{task_list,inbox,team_manager}.rs`.
Each store is modelled as a pure state-passing function: the persisted JSON
document becomes an explicit value (`Option` marks whether the file exists),
and each Rust method becomes a Lean function from the pre-state (plus its
arguments) to its result and the post-state.  External inputs that the Rust
code obtains from collaborators (the RFC3339 clock, thread ids) are passed in
as plain strings.
-/

namespace Teams

/-- Task status, from `codex_protocol::protocol::TeamTaskStatus`. -/
inductive TeamTaskStatus
  | Pending
  | InProgress
  | Completed
deriving DecidableEq, Repr

/-- A task, from `codex_protocol::protocol::TeamTaskInfo` (fields as used by
`task_list.rs`). -/
structure TeamTaskInfo where
  id : String
  title : String
  status : TeamTaskStatus
  assigned_to : Option String
  depends_on : List String
deriving DecidableEq, Repr

instance : Inhabited TeamTaskInfo :=
  ⟨{ id := "", title := "", status := .Pending, assigned_to := none, depends_on := [] }⟩

/-- The on-disk task document, `TaskListData` in `task_list.rs`. -/
structure TaskListData where
  tasks : List TeamTaskInfo
deriving DecidableEq, Repr

/-- `TaskListData::default()`: an empty task list. -/
def TaskListData.default : TaskListData := ⟨[]⟩

/-- The persisted document for one team: `none` when `tasks.json` does not
exist, `some d` when it holds `d`. -/
abbrev TaskDoc := Option TaskListData

/-- Modify the first element of a list satisfying `p` by `f`, returning the
modified element (if any) and the updated list.  This is the common shape of
the Rust mutators, which find a position / the first matching element and
mutate it in place. -/
def modifyFirst (p : α → Bool) (f : α → α) : List α → Option α × List α
  | [] => (none, [])
  | x :: xs =>
    if p x then (some (f x), f x :: xs)
    else
      let r := modifyFirst p f xs
      (r.1, x :: r.2)

/-- `TaskList::load`: a missing file reads as the default (empty) list. -/
def loadTasks (doc : TaskDoc) : TaskListData := doc.getD TaskListData.default

/-- `TaskList::init`: creates the directory and saves `TaskListData::default()`,
regardless of whether a document already exists. -/
def initTasks (_doc : TaskDoc) : TaskDoc := some TaskListData.default

/-- `TaskList::create_task`: load, push, save. -/
def createTask (doc : TaskDoc) (task : TeamTaskInfo) : TaskDoc :=
  some ⟨(loadTasks doc).tasks ++ [task]⟩

/-- The set of completed task ids collected by `accept_next_task`
(the `completed` `HashSet`; a list models set membership). -/
def completedIds (d : TaskListData) : List String :=
  (d.tasks.filter fun t => decide (t.status = .Completed)).map (·.id)

/-- The eligibility test of `accept_next_task`'s `position` closure:
pending, unassigned, and every dependency id is in the completed set. -/
def eligibleB (completed : List String) (t : TeamTaskInfo) : Bool :=
  decide (t.status = .Pending) && t.assigned_to.isNone
    && t.depends_on.all fun dep => completed.contains dep

/-- The in-place mutation applied to the selected task:
status to `InProgress`, assignee to the claimant. -/
def claimTask (claimant : String) (t : TeamTaskInfo) : TeamTaskInfo :=
  { t with status := .InProgress, assigned_to := some claimant }

/-- `TaskList::accept_next_task` on the loaded data: compute the completed set
from the snapshot, mutate the first eligible task, return its enriched copy. -/
def acceptNextTaskData (d : TaskListData) (claimant : String) :
    Option TeamTaskInfo × TaskListData :=
  let r := modifyFirst (eligibleB (completedIds d)) (claimTask claimant) d.tasks
  (r.1, ⟨r.2⟩)

/-- `TaskList::accept_next_task` at the store level: load (missing file reads
empty), and save only when a task was selected. -/
def acceptNextTask (doc : TaskDoc) (claimant : String) :
    Option TeamTaskInfo × TaskDoc :=
  let r := acceptNextTaskData (loadTasks doc) claimant
  match r.1 with
  | some t => (some t, some r.2)
  | none => (none, doc)

/-- `TaskList::complete_task` on the loaded data: set the first task with the
given id to `Completed`; report whether one was found. -/
def completeTaskData (d : TaskListData) (task_id : String) : Bool × TaskListData :=
  let r := modifyFirst (fun t => t.id == task_id)
    (fun t => { t with status := .Completed }) d.tasks
  (r.1.isSome, ⟨r.2⟩)

/-- `TaskList::complete_task` at the store level: save only when found. -/
def completeTask (doc : TaskDoc) (task_id : String) : Bool × TaskDoc :=
  let r := completeTaskData (loadTasks doc) task_id
  if r.1 then (true, some r.2) else (false, doc)

/-- The in-place mutation of `assign_task`: set the assignee unconditionally
and advance `Pending` to `InProgress`. -/
def assignMut (assignee : String) (t : TeamTaskInfo) : TeamTaskInfo :=
  { t with
    assigned_to := some assignee
    status := if t.status = .Pending then .InProgress else t.status }

/-- `TaskList::assign_task` on the loaded data. -/
def assignTaskData (d : TaskListData) (task_id assignee : String) :
    Bool × TaskListData :=
  let r := modifyFirst (fun t => t.id == task_id) (assignMut assignee) d.tasks
  (r.1.isSome, ⟨r.2⟩)

/-- `TaskList::assign_task` at the store level: save only when found. -/
def assignTask (doc : TaskDoc) (task_id assignee : String) : Bool × TaskDoc :=
  let r := assignTaskData (loadTasks doc) task_id assignee
  if r.1 then (true, some r.2) else (false, doc)

/-- `TaskList::get_all_tasks`. -/
def getAllTasks (doc : TaskDoc) : List TeamTaskInfo := (loadTasks doc).tasks

/-- Spec-level eligibility, phrased as the spec does: status is `Pending`,
assignee is unset, and every id in the dependency set belongs to a task whose
status is `Completed`. -/
def Eligible (d : TaskListData) (t : TeamTaskInfo) : Prop :=
  t.status = .Pending ∧ t.assigned_to = none ∧
    ∀ dep ∈ t.depends_on, ∃ u ∈ d.tasks, u.id = dep ∧ u.status = .Completed

instance (d : TaskListData) (t : TeamTaskInfo) : Decidable (Eligible d t) := by
  unfold Eligible; infer_instance

/-- One interleaved execution of two `accept_next_task` calls in which both
claimants load the document before either saves.  Nothing in `task_list.rs`
prevents this schedule: the load-compute-save sequence takes no lock (despite
the module doc's claim of file locking), and both `fs` awaits are suspension
points.  The first claimant's save is then overwritten by the second's.
Returns (first claimant's result, second claimant's result, final document). -/
def racedAccept (d : TaskListData) (c1 c2 : String) :
    Option TeamTaskInfo × Option TeamTaskInfo × TaskListData :=
  let r1 := acceptNextTaskData d c1
  let r2 := acceptNextTaskData d c2
  (r1.1, r2.1, r2.2)

/-- A queue operation, for stating trajectory invariants over
`task_list.rs`'s mutators. -/
inductive QueueOp
  | create (task : TeamTaskInfo)
  | accept (claimant : String)
  | assign (task_id assignee : String)
  | complete (task_id : String)
deriving DecidableEq, Repr

/-- Apply one queue operation to the loaded data. -/
def applyOp (d : TaskListData) : QueueOp → TaskListData
  | .create t => ⟨d.tasks ++ [t]⟩
  | .accept c => (acceptNextTaskData d c).2
  | .assign tid a => (assignTaskData d tid a).2
  | .complete tid => (completeTaskData d tid).2

/-- Whether an operation is a claim (`accept_next_task`) or an explicit
assignment (`assign_task`). -/
def QueueOp.isClaimOrAssign : QueueOp → Bool
  | .accept _ => true
  | .assign _ _ => true
  | _ => false

/-- Whether an operation is `complete_task`. -/
def QueueOp.isComplete : QueueOp → Bool
  | .complete _ => true
  | _ => false

/-! ## Mailbox store (`inbox.rs`) -/

/-- A message, `InboxMessage` in `inbox.rs` (`from` is renamed `sender`:
`from` is a reserved word in Lean). -/
structure InboxMessage where
  sender : String
  timestamp : String
  content : String
  read : Bool
deriving DecidableEq, Repr

/-- One agent's mailbox document: `none` when `inboxes/{agent}.json` does not
exist, `some msgs` when it exists and holds `msgs`. -/
abbrev MailboxDoc := Option (List InboxMessage)

/-- `Inbox::read_inbox`: a missing file reads as the empty list. -/
def readInbox (doc : MailboxDoc) : List InboxMessage := doc.getD []

/-- `Inbox::create_inbox`: writes `[]` only when the file does not exist. -/
def createInbox (doc : MailboxDoc) : MailboxDoc :=
  match doc with
  | none => some []
  | some msgs => some msgs

/-- `Inbox::send_message`: read (missing reads empty), append, write. -/
def sendMessage (doc : MailboxDoc) (m : InboxMessage) : MailboxDoc :=
  some (readInbox doc ++ [m])

/-- `Inbox::consume_unread`: capture the unread messages, and only when there
is at least one, mark every message read and write the file back. -/
def consumeUnread (doc : MailboxDoc) : List InboxMessage × MailboxDoc :=
  let all := readInbox doc
  let unread := all.filter fun m => !m.read
  if unread.isEmpty then (unread, doc)
  else (unread, some (all.map fun m => { m with read := true }))

/-- The mailbox directory of one team: the provisioned mailboxes in the order
`read_dir` enumerates them, each with its message log. -/
abbrev MailDir := List (String × List InboxMessage)

/-- Append a message to one agent's log inside the directory. -/
def deliverTo (dir : MailDir) (agent : String) (m : InboxMessage) : MailDir :=
  dir.map fun p => if p.1 = agent then (p.1, p.2 ++ [m]) else p

/-- The fan-out loop of `Inbox::broadcast` over the enumerated agents.
`fails` says whether the write to a given agent's file fails (an `IoFailure`);
on a failure the `?` operator propagates it immediately, so the remaining
agents are not attempted.  Returns the first error (the failing agent's name)
if any, together with the directory as persisted when the loop stopped. -/
def broadcastLoop (fails : String → Bool) (sender content timestamp : String)
    (exclude_self : Bool) : List String → MailDir → Option String × MailDir
  | [], dir => (none, dir)
  | a :: rest, dir =>
    if exclude_self && a == sender then
      broadcastLoop fails sender content timestamp exclude_self rest dir
    else if fails a then (some a, dir)
    else
      broadcastLoop fails sender content timestamp exclude_self rest
        (deliverTo dir a ⟨sender, timestamp, content, false⟩)

/-- `Inbox::broadcast`: enumerate the provisioned agents (the directory's
order), construct one message per recipient with the shared timestamp, and
send to each, skipping the sender when `exclude_self` is set. -/
def broadcast (fails : String → Bool) (dir : MailDir)
    (sender content timestamp : String) (exclude_self : Bool) :
    Option String × MailDir :=
  broadcastLoop fails sender content timestamp exclude_self (dir.map (·.1)) dir

/-! ## Membership registry (`team_manager.rs`) -/

/-- `MemberConfig` in `team_manager.rs` (`ThreadId` is opaque: a string). -/
structure MemberConfig where
  name : String
  thread_id : String
  role : Option String
  status : String
  prompt : Option String
deriving DecidableEq, Repr

/-- `TeamConfig` in `team_manager.rs`. -/
structure TeamConfig where
  name : String
  created_at : String
  leader_thread_id : String
  members : List MemberConfig
  display_mode : String
  delegation_mode : Bool
deriving DecidableEq, Repr

/-- The persisted team document: `none` when `config.json` does not exist. -/
abbrev TeamDoc := Option TeamConfig

/-- `TeamManager::create_team`: creates the directories, then writes a fresh
config with empty member list and returns it — with no check whether a
document already exists.  `created_at` comes from the external clock. -/
def createTeam (_doc : TeamDoc) (name created_at leader_thread_id : String) :
    TeamConfig × TeamDoc :=
  let config : TeamConfig :=
    { name := name
      created_at := created_at
      leader_thread_id := leader_thread_id
      members := []
      display_mode := "in-process"
      delegation_mode := false }
  (config, some config)

/-- `TeamManager::add_member`, given the loaded config (the Rust code errors
with `NotFound` before this point when the config is missing): create the
member's inbox file only if absent, append the member, save the config.
Returns the new config document and the member's mailbox document. -/
def addMember (config : TeamConfig) (inbox : MailboxDoc) (member : MemberConfig) :
    TeamConfig × MailboxDoc :=
  let inbox' := match inbox with
    | none => some []
    | some msgs => some msgs
  ({ config with members := config.members ++ [member] }, inbox')

/-! ## Lemmas about `modifyFirst` -/

theorem modifyFirst_eq_none {p : α → Bool} {f : α → α} :
    ∀ {l : List α}, (∀ x ∈ l, p x = false) → modifyFirst p f l = (none, l)
  | [], _ => rfl
  | x :: xs, h => by
    have hx : p x = false := h x (List.mem_cons_self x xs)
    have ih := modifyFirst_eq_none (p := p) (f := f) (l := xs)
      fun y hy => h y (List.mem_cons_of_mem _ hy)
    simp [modifyFirst, hx, ih]

theorem modifyFirst_append {p : α → Bool} {f : α → α} {pre : List α} {x : α}
    {post : List α} (hpre : ∀ y ∈ pre, p y = false) (hx : p x = true) :
    modifyFirst p f (pre ++ x :: post) = (some (f x), pre ++ f x :: post) := by
  induction pre with
  | nil => simp [modifyFirst, hx]
  | cons y ys ih =>
    have hy : p y = false := hpre y (List.mem_cons_self y ys)
    have ih' := ih fun z hz => hpre z (List.mem_cons_of_mem _ hz)
    simp [modifyFirst, hy, ih']

theorem modifyFirst_fst_eq_some {p : α → Bool} {f : α → α} :
    ∀ {l : List α} {r : α}, (modifyFirst p f l).1 = some r →
      ∃ x ∈ l, p x = true ∧ r = f x
  | [], r, h => by simp [modifyFirst] at h
  | x :: xs, r, h => by
    by_cases hx : p x = true
    · refine ⟨x, List.mem_cons_self x xs, hx, ?_⟩
      simp [modifyFirst, hx] at h
      exact h.symm
    · simp [modifyFirst, hx] at h
      obtain ⟨y, hy, hpy, hr⟩ := modifyFirst_fst_eq_some h
      exact ⟨y, List.mem_cons_of_mem _ hy, hpy, hr⟩

theorem modifyFirst_length {p : α → Bool} {f : α → α} :
    ∀ (l : List α), (modifyFirst p f l).2.length = l.length
  | [] => rfl
  | x :: xs => by
    by_cases hx : p x = true
    · simp [modifyFirst, hx]
    · simp [modifyFirst, hx, modifyFirst_length xs]

theorem modifyFirst_getD {p : α → Bool} {f : α → α} (d : α) :
    ∀ (l : List α) (i : Nat),
      (modifyFirst p f l).2.getD i d = l.getD i d ∨
        ((modifyFirst p f l).2.getD i d = f (l.getD i d) ∧ p (l.getD i d) = true)
  | [], i => by simp [modifyFirst]
  | x :: xs, i => by
    by_cases hx : p x = true
    · cases i with
      | zero => right; simp [modifyFirst, hx]
      | succ j => left; simp [modifyFirst, hx]
    · cases i with
      | zero => left; simp [modifyFirst, hx]
      | succ j =>
        have := modifyFirst_getD (p := p) (f := f) d xs j
        simpa [modifyFirst, hx] using this

/-! ## Eligibility: the code's boolean test matches the spec's predicate -/

theorem eligibleB_iff {d : TaskListData} {t : TeamTaskInfo} :
    eligibleB (completedIds d) t = true ↔ Eligible d t := by
  unfold eligibleB Eligible completedIds
  simp only [Bool.and_eq_true, decide_eq_true_eq, Option.isNone_iff_eq_none,
    List.all_eq_true, List.contains, List.elem_iff, List.mem_map,
    List.mem_filter, and_assoc]
  constructor
  · rintro ⟨hs, ha, hdep⟩
    refine ⟨hs, ha, fun dep hmem => ?_⟩
    obtain ⟨u, hu, hc, hid⟩ := hdep dep hmem
    exact ⟨u, hu, hid, hc⟩
  · rintro ⟨hs, ha, hdep⟩
    refine ⟨hs, ha, fun dep hmem => ?_⟩
    obtain ⟨u, hu, hid, hc⟩ := hdep dep hmem
    exact ⟨u, hu, hc, hid⟩

theorem not_eligibleB {d : TaskListData} {t : TeamTaskInfo}
    (h : ¬ Eligible d t) : eligibleB (completedIds d) t = false := by
  rcases Bool.eq_false_or_eq_true (eligibleB (completedIds d) t) with ht | hf
  · exact absurd (eligibleB_iff.mp ht) h
  · exact hf

/-! ## C1: `accept_next_task` claims exactly the first eligible task -/

/-- C1: `accept_next_task` returns exactly the first task in creation order
that is `Pending`, unassigned, and whose every dependency id belongs to a
`Completed` task, with status `InProgress` and the claimant as assignee in
both the returned copy and the persisted document; when no task qualifies it
returns nothing and the persisted document is unchanged; and every returned
task is (the claimed copy of) an eligible one, so a task with an uncompleted
or unresolvable dependency is never returned. -/
theorem accept_next_task_first_eligible (doc : TaskDoc) (claimant : String) :
    ((∀ t ∈ (loadTasks doc).tasks, ¬ Eligible (loadTasks doc) t) →
        acceptNextTask doc claimant = (none, doc)) ∧
    (∀ pre t post, (loadTasks doc).tasks = pre ++ t :: post →
        Eligible (loadTasks doc) t →
        (∀ u ∈ pre, ¬ Eligible (loadTasks doc) u) →
        acceptNextTask doc claimant =
          (some (claimTask claimant t),
            some ⟨pre ++ claimTask claimant t :: post⟩)) ∧
    (∀ r doc2, acceptNextTask doc claimant = (some r, doc2) →
        ∃ t ∈ (loadTasks doc).tasks, Eligible (loadTasks doc) t ∧
          r = claimTask claimant t) := by
  refine ⟨fun h => ?_, fun pre t post hsplit ht hpre => ?_, fun r doc2 hr => ?_⟩
  · have hmod : modifyFirst (eligibleB (completedIds (loadTasks doc)))
        (claimTask claimant) (loadTasks doc).tasks = (none, (loadTasks doc).tasks) :=
      modifyFirst_eq_none fun x hx => not_eligibleB (h x hx)
    simp [acceptNextTask, acceptNextTaskData, hmod]
  · have hmod : modifyFirst (eligibleB (completedIds (loadTasks doc)))
        (claimTask claimant) (pre ++ t :: post) =
        (some (claimTask claimant t), pre ++ claimTask claimant t :: post) :=
      modifyFirst_append (fun y hy => not_eligibleB (hpre y hy)) (eligibleB_iff.mpr ht)
    simp [acceptNextTask, acceptNextTaskData, hsplit, hmod]
  · have hfst : (modifyFirst (eligibleB (completedIds (loadTasks doc)))
        (claimTask claimant) (loadTasks doc).tasks).1 = some r := by
      by_cases hc : (modifyFirst (eligibleB (completedIds (loadTasks doc)))
          (claimTask claimant) (loadTasks doc).tasks).1 = none
      · simp [acceptNextTask, acceptNextTaskData, hc] at hr
      · obtain ⟨r', hr'⟩ := Option.ne_none_iff_exists'.mp hc
        simp [acceptNextTask, acceptNextTaskData, hr'] at hr
        simp [hr', hr.1]
    obtain ⟨x, hx, hpx, hrx⟩ := modifyFirst_fst_eq_some hfst
    exact ⟨x, hx, eligibleB_iff.mp hpx, hrx⟩

def wTask0 : TeamTaskInfo :=
  { id := "t0", title := "Zeroth", status := .Completed
    assigned_to := some "carol", depends_on := [] }

def wTask1 : TeamTaskInfo :=
  { id := "t1", title := "First", status := .Pending
    assigned_to := none, depends_on := ["missing"] }

def wTask2 : TeamTaskInfo :=
  { id := "t2", title := "Second", status := .Pending
    assigned_to := none, depends_on := ["t0"] }

/-- Witness for C1: on a document with a completed task, a blocked task and an
eligible task, `accept_next_task` skips the blocked one and claims `t2`. -/
theorem accept_next_task_first_eligible_witness :
    acceptNextTask (some ⟨[wTask0, wTask1, wTask2]⟩) "alice" =
      (some (claimTask "alice" wTask2),
        some ⟨[wTask0, wTask1, claimTask "alice" wTask2]⟩) :=
  (accept_next_task_first_eligible (some ⟨[wTask0, wTask1, wTask2]⟩) "alice").2.1
    [wTask0, wTask1] wTask2 [] rfl (by decide) (by decide)

/-! ## C2: the unguarded read-evaluate-write admits a double claim -/

def raceTask : TeamTaskInfo :=
  { id := "t1", title := "Only", status := .Pending
    assigned_to := none, depends_on := [] }

/-- C2 (code bug): under the interleaving in which both claimants load before
either saves — which no lock in `task_list.rs` prevents — both `alice` and
`bob` are returned the same task `t1`, and the persisted document records only
`bob` as assignee.  With N = 1 eligible task and M = 2 claimants, two claims
succeed instead of min(1, 2) = 1, violating at-most-once claiming. -/
theorem accept_next_task_double_claim_race :
    racedAccept ⟨[raceTask]⟩ "alice" "bob" =
      (some { id := "t1", title := "Only", status := .InProgress
              assigned_to := some "alice", depends_on := [] },
       some { id := "t1", title := "Only", status := .InProgress
              assigned_to := some "bob", depends_on := [] },
       ⟨[{ id := "t1", title := "Only", status := .InProgress
           assigned_to := some "bob", depends_on := [] }]⟩) ∧
    ((racedAccept ⟨[raceTask]⟩ "alice" "bob").1.map (·.id) =
      (racedAccept ⟨[raceTask]⟩ "alice" "bob").2.1.map (·.id)) :=
  ⟨rfl, rfl⟩

/-! ## C3: `create_team` never checks for an existing team -/

def wMember : MemberConfig :=
  { name := "reviewer", thread_id := "TH2", role := some "security"
    status := "running", prompt := none }

def wExistingTeam : TeamConfig :=
  { name := "t", created_at := "2026-01-01T00:00:00Z", leader_thread_id := "TH1"
    members := [wMember], display_mode := "in-process", delegation_mode := false }

/-- Counterexample to C3: with a config document already present for team
`t` (holding one member), `create_team` does not fail — it succeeds and
replaces the existing document with a fresh empty-member config, so the
existing document is not left unchanged. -/
theorem create_team_overwrites_existing :
    createTeam (some wExistingTeam) "t" "2026-02-02T00:00:00Z" "TH1" =
      ({ name := "t", created_at := "2026-02-02T00:00:00Z"
         leader_thread_id := "TH1", members := [], display_mode := "in-process"
         delegation_mode := false },
       some { name := "t", created_at := "2026-02-02T00:00:00Z"
              leader_thread_id := "TH1", members := [], display_mode := "in-process"
              delegation_mode := false }) ∧
    (createTeam (some wExistingTeam) "t" "2026-02-02T00:00:00Z" "TH1").2 ≠
      some wExistingTeam := by
  refine ⟨rfl, ?_⟩
  decide

/-- C3 (amended): `create_team` ignores any existing document entirely — its
result does not depend on the pre-state, it never fails with `AlreadyExists`;
it always writes a fresh config with an empty member list (overwriting any
existing document) and returns that config. -/
theorem create_team_ignores_existing (doc : TeamDoc)
    (name created_at leader : String) :
    createTeam doc name created_at leader = createTeam none name created_at leader ∧
    (createTeam doc name created_at leader).1.members = [] ∧
    (createTeam doc name created_at leader).2 =
      some (createTeam doc name created_at leader).1 :=
  ⟨rfl, rfl, rfl⟩

/-! ## C4: `init` unconditionally resets the task document -/

/-- Counterexample to C4: after `init`; `create_task t1`; `init`, the task
list is empty — the second `init` did not leave the existing document's task
list (which held `t1`) unchanged. -/
theorem init_resets_existing_tasks :
    getAllTasks (createTask (initTasks none) wTask1) = [wTask1] ∧
    getAllTasks (initTasks (createTask (initTasks none) wTask1)) = [] :=
  ⟨rfl, rfl⟩

/-- C4 (amended): `init` unconditionally writes an empty queue document,
whether or not one exists, discarding any existing task list; it is idempotent
only in the sense that a second `init` changes nothing further. -/
theorem init_always_writes_empty (doc : TaskDoc) :
    initTasks doc = some TaskListData.default ∧
    initTasks (initTasks doc) = initTasks doc :=
  ⟨rfl, rfl⟩

/-! ## C9: a missing tasks document reads as an empty queue -/

/-- C9: when no tasks document exists, `load` returns the default empty list,
`get_all_tasks` returns the empty sequence, `accept_next_task` returns nothing
(and writes nothing: the document stays missing), and `complete_task` and
`assign_task` return false without writing. -/
theorem missing_tasks_doc_reads_empty (claimant task_id assignee : String) :
    loadTasks none = TaskListData.default ∧
    getAllTasks none = [] ∧
    acceptNextTask none claimant = (none, none) ∧
    completeTask none task_id = (false, none) ∧
    assignTask none task_id assignee = (false, none) :=
  ⟨rfl, rfl, rfl, rfl, rfl⟩

/-! ## C5: broadcast aborts fan-out at the first failing send -/

def wDir3 : MailDir := [("alice", []), ("bob", []), ("carol", [])]

def failsOnlyBob : String → Bool := fun a => a == "bob"

/-- Counterexample to C5: with mailboxes for `alice`, `bob`, `carol` (in that
enumeration order), the sender `alice` excluded, and the write to `bob`
failing, `broadcast` stops at `bob`: it returns that first error, but
`carol`'s mailbox is left empty even though a send to `carol` would have
succeeded — the remaining recipient was never attempted. -/
theorem broadcast_does_not_attempt_remaining :
    broadcast failsOnlyBob wDir3 "alice" "hi" "2026-01-01T00:00:00Z" true =
      (some "bob", wDir3) ∧
    failsOnlyBob "carol" = false :=
  ⟨rfl, rfl⟩

theorem broadcastLoop_stops (fails : String → Bool)
    (sender content ts : String) (ex : Bool) (post : List String) (f : String)
    (hf : (ex && (f == sender)) = false) (hff : fails f = true) :
    ∀ (pre : List String) (dir : MailDir),
      (∀ a ∈ pre, (ex && (a == sender)) = true ∨ fails a = false) →
      broadcastLoop fails sender content ts ex (pre ++ f :: post) dir =
        (some f,
          pre.foldl
            (fun d a => if ex && (a == sender) then d
              else deliverTo d a ⟨sender, ts, content, false⟩) dir)
  | [], dir, _ => by
    simp only [List.nil_append, broadcastLoop, List.foldl_nil]
    rw [if_neg (by simp [hf]), if_pos hff]
  | a :: rest, dir, hpre => by
    have hrest : ∀ b ∈ rest, (ex && (b == sender)) = true ∨ fails b = false :=
      fun b hb => hpre b (List.mem_cons_of_mem _ hb)
    simp only [List.cons_append, broadcastLoop, List.foldl_cons]
    by_cases hc : (ex && (a == sender)) = true
    · rw [if_pos hc, if_pos hc]
      exact broadcastLoop_stops fails sender content ts ex post f hf hff rest dir
        hrest
    · have hnf : fails a = false := by
        rcases hpre a (List.mem_cons_self a rest) with h | h
        · exact absurd h hc
        · exact h
      rw [if_neg hc, if_neg (by simp [hnf]), if_neg hc]
      exact broadcastLoop_stops fails sender content ts ex post f hf hff rest
        (deliverTo dir a ⟨sender, ts, content, false⟩) hrest

/-- C5 (amended): when the enumerated mailboxes split as `pre ++ f :: post`
with no effective failure in `pre` and the (non-skipped) recipient `f`
failing, `broadcast` delivers only to the non-skipped recipients in `pre`,
stops at `f`, reports `f`'s error as the outcome, and never attempts the
recipients in `post` (whose mailboxes, like `f`'s, are unchanged). -/
theorem broadcast_stops_at_first_failure (fails : String → Bool) (dir : MailDir)
    (sender content ts : String) (ex : Bool) (pre : List String) (f : String)
    (post : List String)
    (hmap : dir.map Prod.fst = pre ++ f :: post)
    (hpre : ∀ a ∈ pre, (ex && (a == sender)) = true ∨ fails a = false)
    (hf : (ex && (f == sender)) = false) (hff : fails f = true) :
    broadcast fails dir sender content ts ex =
      (some f,
        pre.foldl
          (fun d a => if ex && (a == sender) then d
            else deliverTo d a ⟨sender, ts, content, false⟩) dir) := by
  unfold broadcast
  rw [hmap]
  exact broadcastLoop_stops fails sender content ts ex post f hf hff pre dir hpre

/-- Witness for C5 (amended): concrete directory `alice`, `bob`, `carol`,
failure at `bob`, sender `alice` excluded: the loop stops at `bob` and the
directory is unchanged. -/
theorem broadcast_stops_at_first_failure_witness :
    (wDir3.map Prod.fst = ["alice"] ++ "bob" :: ["carol"]) ∧
    (∀ a ∈ ["alice"], (true && (a == "alice")) = true ∨ failsOnlyBob a = false) ∧
    ((true && ("bob" == "alice")) = false) ∧ failsOnlyBob "bob" = true ∧
    broadcast failsOnlyBob wDir3 "alice" "hi" "TS" true = (some "bob", wDir3) :=
  ⟨rfl, by decide, rfl, rfl,
    broadcast_stops_at_first_failure failsOnlyBob wDir3 "alice" "hi" "TS" true
      ["alice"] "bob" ["carol"] rfl (by decide) rfl rfl⟩

/-! ## C6 and C10: read-once mailbox semantics of `consume_unread` -/

theorem setRead_of_read {m : InboxMessage} (h : m.read = true) :
    { m with read := true } = m := by
  cases m
  simp_all

theorem all_read_map_id {l : List InboxMessage}
    (h : ∀ m ∈ l, m.read = true) :
    l.map (fun m => { m with read := true }) = l := by
  induction l with
  | nil => rfl
  | cons x xs ih =>
    have hx := setRead_of_read (h x (List.mem_cons_self x xs))
    have := ih fun m hm => h m (List.mem_cons_of_mem _ hm)
    simp [hx, this]

theorem consumeUnread_eq_ite (doc : MailboxDoc) :
    consumeUnread doc =
      if ((readInbox doc).filter fun m => !m.read).isEmpty then
        ((readInbox doc).filter fun m => !m.read, doc)
      else
        ((readInbox doc).filter fun m => !m.read,
          some ((readInbox doc).map fun m => { m with read := true })) := rfl

theorem consumeUnread_fst (doc : MailboxDoc) :
    (consumeUnread doc).1 = (readInbox doc).filter (fun m => !m.read) := by
  rw [consumeUnread_eq_ite]
  by_cases h : ((readInbox doc).filter fun m => !m.read).isEmpty
  · rw [if_pos h]
  · rw [if_neg h]

theorem consumeUnread_snd (doc : MailboxDoc) :
    readInbox (consumeUnread doc).2 =
      (readInbox doc).map (fun m => { m with read := true }) := by
  rw [consumeUnread_eq_ite]
  by_cases h : ((readInbox doc).filter fun m => !m.read).isEmpty
  · rw [if_pos h]
    have hall : ∀ m ∈ readInbox doc, m.read = true := by
      intro m hm
      have := List.filter_eq_nil_iff.mp (List.isEmpty_iff.mp h) m hm
      simpa using this
    exact (all_read_map_id hall).symm
  · rw [if_neg h]
    rfl

/-- C6: `consume_unread` returns exactly the messages whose read flag is
false, in log order; the resulting persisted log is the old log with every
read flag set to true (all other fields and the order unchanged, so
already-read messages are untouched and excluded from the result); and a
second immediate call returns the empty sequence. -/
theorem consume_unread_read_once (doc : MailboxDoc) :
    (consumeUnread doc).1 = (readInbox doc).filter (fun m => !m.read) ∧
    readInbox (consumeUnread doc).2 =
      (readInbox doc).map (fun m => { m with read := true }) ∧
    (∀ m ∈ readInbox (consumeUnread doc).2, m.read = true) ∧
    (consumeUnread (consumeUnread doc).2).1 = [] := by
  have h1 := consumeUnread_fst doc
  have h2 := consumeUnread_snd doc
  have h3 : ∀ m ∈ readInbox (consumeUnread doc).2, m.read = true := by
    intro m hm
    rw [h2] at hm
    obtain ⟨m', _, rfl⟩ := List.mem_map.mp hm
    rfl
  have h4 : (consumeUnread (consumeUnread doc).2).1 = [] := by
    rw [consumeUnread_fst]
    exact List.filter_eq_nil_iff.mpr fun m hm => by simp [h3 m hm]
  exact ⟨h1, h2, h3, h4⟩

/-- C10: when no message in the mailbox is unread (including an empty or
missing log), `consume_unread` returns the empty sequence and performs no
write: the persisted document — even its existence — is exactly as before. -/
theorem consume_unread_no_unread_no_write (doc : MailboxDoc)
    (h : ∀ m ∈ readInbox doc, m.read = true) :
    consumeUnread doc = ([], doc) := by
  have hfil : (readInbox doc).filter (fun m => !m.read) = [] :=
    List.filter_eq_nil_iff.mpr fun m hm => by simp [h m hm]
  rw [consumeUnread_eq_ite, hfil]
  rfl

/-- Witness for C10: a log holding one already-read message is returned
untouched, with an empty result. -/
theorem consume_unread_no_unread_no_write_witness :
    (∀ m ∈ readInbox (some [⟨"bob", "2026-01-01T00:00:00Z", "hi", true⟩]),
      m.read = true) ∧
    consumeUnread (some [⟨"bob", "2026-01-01T00:00:00Z", "hi", true⟩]) =
      ([], some [⟨"bob", "2026-01-01T00:00:00Z", "hi", true⟩]) :=
  ⟨by decide,
    consume_unread_no_unread_no_write
      (some [⟨"bob", "2026-01-01T00:00:00Z", "hi", true⟩]) (by decide)⟩

/-! ## C7: task status never regresses -/

theorem eligibleB_status {completed : List String} {t : TeamTaskInfo}
    (h : eligibleB completed t = true) : t.status = .Pending := by
  unfold eligibleB at h
  simp only [Bool.and_eq_true, decide_eq_true_eq] at h
  exact h.1.1

theorem getD_append_of_lt {l l' : List α} {i : Nat} (d : α)
    (h : i < l.length) : (l ++ l').getD i d = l.getD i d := by
  simp [List.getD_eq_getElem?_getD, List.getElem?_append_left h]

theorem applyOp_create_getD (d : TaskListData) (t : TeamTaskInfo) {i : Nat}
    (hi : i < d.tasks.length) :
    (applyOp d (.create t)).tasks.getD i default = d.tasks.getD i default :=
  getD_append_of_lt default hi

theorem claimTask_status (c : String) (t : TeamTaskInfo) :
    (claimTask c t).status = .InProgress := rfl

theorem assignMut_status (a : String) (t : TeamTaskInfo) :
    (assignMut a t).status =
      if t.status = .Pending then .InProgress else t.status := rfl

theorem completeMut_status (t : TeamTaskInfo) :
    ({ t with status := .Completed } : TeamTaskInfo).status = .Completed := rfl

theorem applyOp_accept_tasks (d : TaskListData) (c : String) :
    (applyOp d (.accept c)).tasks =
      (modifyFirst (eligibleB (completedIds d)) (claimTask c) d.tasks).2 := rfl

theorem applyOp_assign_tasks (d : TaskListData) (tid a : String) :
    (applyOp d (.assign tid a)).tasks =
      (modifyFirst (fun t => t.id == tid) (assignMut a) d.tasks).2 := rfl

theorem applyOp_complete_tasks (d : TaskListData) (tid : String) :
    (applyOp d (.complete tid)).tasks =
      (modifyFirst (fun t => t.id == tid)
        (fun t => { t with status := .Completed }) d.tasks).2 := rfl

theorem completed_stable_step (d : TaskListData) (op : QueueOp) (i : Nat)
    (h : (d.tasks.getD i default).status = .Completed) :
    ((applyOp d op).tasks.getD i default).status = .Completed := by
  by_cases hi : i < d.tasks.length
  case neg =>
    rw [List.getD_eq_getElem?_getD, List.getElem?_eq_none (by omega)] at h
    exact absurd h (by decide)
  case pos =>
    cases op with
    | create t => rw [applyOp_create_getD d t hi]; exact h
    | accept c =>
      rw [applyOp_accept_tasks]
      rcases modifyFirst_getD (p := eligibleB (completedIds d))
          (f := claimTask c) default d.tasks i with hsame | ⟨_, hp⟩
      · rw [hsame]; exact h
      · rw [eligibleB_status hp] at h; exact absurd h (by decide)
    | assign tid a =>
      rw [applyOp_assign_tasks]
      rcases modifyFirst_getD (p := fun t => t.id == tid)
          (f := assignMut a) default d.tasks i with hsame | ⟨hch, _⟩
      · rw [hsame]; exact h
      · rw [hch, assignMut_status, h]; decide
    | complete tid =>
      rw [applyOp_complete_tasks]
      rcases modifyFirst_getD (p := fun t => t.id == tid)
          (f := fun t => { t with status := .Completed }) default d.tasks i with
        hsame | ⟨hch, _⟩
      · rw [hsame]; exact h
      · rw [hch, completeMut_status]

theorem foldl_completed_stable (ops : List QueueOp) (d : TaskListData) (i : Nat)
    (h : (d.tasks.getD i default).status = .Completed) :
    ((ops.foldl applyOp d).tasks.getD i default).status = .Completed := by
  induction ops generalizing d with
  | nil => exact h
  | cons op ops ih => exact ih _ (completed_stable_step d op i h)

theorem pending_back_step (d : TaskListData) (op : QueueOp) (i : Nat)
    (hi : i < d.tasks.length)
    (h : ((applyOp d op).tasks.getD i default).status = .Pending) :
    (d.tasks.getD i default).status = .Pending := by
  cases op with
  | create t => rw [applyOp_create_getD d t hi] at h; exact h
  | accept c =>
    rw [applyOp_accept_tasks] at h
    rcases modifyFirst_getD (p := eligibleB (completedIds d))
        (f := claimTask c) default d.tasks i with hsame | ⟨hch, _⟩
    · rw [hsame] at h; exact h
    · rw [hch, claimTask_status] at h; exact absurd h (by decide)
  | assign tid a =>
    rw [applyOp_assign_tasks] at h
    rcases modifyFirst_getD (p := fun t => t.id == tid)
        (f := assignMut a) default d.tasks i with hsame | ⟨hch, _⟩
    · rw [hsame] at h; exact h
    · rw [hch, assignMut_status] at h
      by_cases hp : (d.tasks.getD i default).status = .Pending
      · exact hp
      · rw [if_neg hp] at h; exact h
  | complete tid =>
    rw [applyOp_complete_tasks] at h
    rcases modifyFirst_getD (p := fun t => t.id == tid)
        (f := fun t => { t with status := .Completed }) default d.tasks i with
      hsame | ⟨hch, _⟩
    · rw [hsame] at h; exact h
    · rw [hch, completeMut_status] at h; exact absurd h (by decide)

theorem pending_to_inprogress_step (d : TaskListData) (op : QueueOp) (i : Nat)
    (hi : i < d.tasks.length)
    (h1 : (d.tasks.getD i default).status = .Pending)
    (h2 : ((applyOp d op).tasks.getD i default).status = .InProgress) :
    op.isClaimOrAssign = true := by
  cases op with
  | create t =>
    rw [applyOp_create_getD d t hi, h1] at h2
    exact absurd h2 (by decide)
  | accept c => rfl
  | assign tid a => rfl
  | complete tid =>
    rw [applyOp_complete_tasks] at h2
    rcases modifyFirst_getD (p := fun t => t.id == tid)
        (f := fun t => { t with status := .Completed }) default d.tasks i with
      hsame | ⟨hch, _⟩
    · rw [hsame, h1] at h2; exact absurd h2 (by decide)
    · rw [hch, completeMut_status] at h2; exact absurd h2 (by decide)

theorem completed_only_by_complete_step (d : TaskListData) (op : QueueOp)
    (i : Nat) (hi : i < d.tasks.length)
    (hne : (d.tasks.getD i default).status ≠ .Completed)
    (h2 : ((applyOp d op).tasks.getD i default).status = .Completed) :
    op.isComplete = true := by
  cases op with
  | create t =>
    rw [applyOp_create_getD d t hi] at h2
    exact absurd h2 hne
  | accept c =>
    rw [applyOp_accept_tasks] at h2
    rcases modifyFirst_getD (p := eligibleB (completedIds d))
        (f := claimTask c) default d.tasks i with hsame | ⟨hch, _⟩
    · rw [hsame] at h2; exact absurd h2 hne
    · rw [hch, claimTask_status] at h2; exact absurd h2 (by decide)
  | assign tid a =>
    rw [applyOp_assign_tasks] at h2
    rcases modifyFirst_getD (p := fun t => t.id == tid)
        (f := assignMut a) default d.tasks i with hsame | ⟨hch, _⟩
    · rw [hsame] at h2; exact absurd h2 hne
    · rw [hch, assignMut_status] at h2
      by_cases hp : (d.tasks.getD i default).status = .Pending
      · rw [if_pos hp] at h2; exact absurd h2 (by decide)
      · rw [if_neg hp] at h2; exact absurd h2 hne
  | complete tid => rfl

/-- C7: over every queue operation (and hence every sequence of them), the
task at any existing position never regresses: a task that ends `Pending` was
already `Pending` (so `InProgress` and `Completed` never fall back to
`Pending`), a `Completed` task stays `Completed` — also along any whole
sequence of operations — a `Pending` task advances to `InProgress` only via
`accept_next_task` or `assign_task`, and a task becomes `Completed` only via
`complete_task`. -/
theorem task_status_never_regresses (d : TaskListData) (op : QueueOp) (i : Nat)
    (hi : i < d.tasks.length) :
    (((applyOp d op).tasks.getD i default).status = .Pending →
        (d.tasks.getD i default).status = .Pending) ∧
    ((d.tasks.getD i default).status = .Completed →
        ((applyOp d op).tasks.getD i default).status = .Completed) ∧
    ((d.tasks.getD i default).status = .Pending →
        ((applyOp d op).tasks.getD i default).status = .InProgress →
        op.isClaimOrAssign = true) ∧
    ((d.tasks.getD i default).status ≠ .Completed →
        ((applyOp d op).tasks.getD i default).status = .Completed →
        op.isComplete = true) ∧
    (∀ ops : List QueueOp, (d.tasks.getD i default).status = .Completed →
        ((ops.foldl applyOp d).tasks.getD i default).status = .Completed) :=
  ⟨pending_back_step d op i hi, completed_stable_step d op i,
    pending_to_inprogress_step d op i hi,
    completed_only_by_complete_step d op i hi,
    fun ops h => foldl_completed_stable ops d i h⟩

def wPending : TeamTaskInfo :=
  { id := "t1", title := "Solo", status := .Pending
    assigned_to := none, depends_on := [] }

/-- Witness for C7: one pending task, completed by `complete_task`. -/
theorem task_status_never_regresses_witness :
    0 < (⟨[wPending]⟩ : TaskListData).tasks.length ∧
    ((((applyOp ⟨[wPending]⟩ (.complete "t1")).tasks.getD 0 default).status =
          .Pending →
        ((⟨[wPending]⟩ : TaskListData).tasks.getD 0 default).status = .Pending) ∧
    (((⟨[wPending]⟩ : TaskListData).tasks.getD 0 default).status = .Completed →
        ((applyOp ⟨[wPending]⟩ (.complete "t1")).tasks.getD 0 default).status =
          .Completed) ∧
    (((⟨[wPending]⟩ : TaskListData).tasks.getD 0 default).status = .Pending →
        ((applyOp ⟨[wPending]⟩ (.complete "t1")).tasks.getD 0 default).status =
          .InProgress →
        (QueueOp.complete "t1").isClaimOrAssign = true) ∧
    (((⟨[wPending]⟩ : TaskListData).tasks.getD 0 default).status ≠ .Completed →
        ((applyOp ⟨[wPending]⟩ (.complete "t1")).tasks.getD 0 default).status =
          .Completed →
        (QueueOp.complete "t1").isComplete = true) ∧
    (∀ ops : List QueueOp,
        ((⟨[wPending]⟩ : TaskListData).tasks.getD 0 default).status = .Completed →
        ((ops.foldl applyOp ⟨[wPending]⟩).tasks.getD 0 default).status =
          .Completed)) :=
  ⟨by decide, task_status_never_regresses ⟨[wPending]⟩ (.complete "t1") 0
    (by decide)⟩
/-! ## C8: mailbox provisioning never clobbers an existing log -/

/-- C8: for an agent whose mailbox file already exists (with any messages),
both `create_inbox` and the inbox-creation side effect of `add_member` leave
the mailbox contents exactly as they were; only when no log exists do they
write an empty one. -/
theorem provisioning_preserves_existing_mailbox (msgs : List InboxMessage)
    (config : TeamConfig) (member : MemberConfig) :
    createInbox (some msgs) = some msgs ∧
    (addMember config (some msgs) member).2 = some msgs ∧
    createInbox none = some [] ∧
    (addMember config none member).2 = some [] :=
  ⟨rfl, rfl, rfl, rfl⟩

end Teams
